import Mathlib

/-!
Shallow embedding of the core of the Souffle-mod interpreter engine
(`src/interpreter/Engine.cpp`, `Engine.h`, `LLMQueryRelationWrapper.h`,
`NullRelationWrapper.h`) together with theorems settling the frozen claims
about it.

Modelling conventions:
* `Domain` (the C++ `RamDomain`) is the 32-bit machine word of the default
  build, represented as its bit pattern, a natural number `< 2^32`.
  `toSigned` / `ofSigned` are the two's-complement reinterpretations
  (`ramBitCast` between `RamDomain` and `RamSigned`); the unsigned
  reinterpretation of a pattern is the pattern itself.
* Fallible or undefined C++ evaluations return `Option` (`none` = undefined
  behaviour), and evaluations that may print on the diagnostic channel
  (`std::cerr`) additionally return the list of warnings they emit.
* IEEE-754 float arithmetic is out of scope of the embedding; where the
  engine manipulates `RamFloat` values the operations are abstracted into a
  `FloatModel` parameter, and the theorems hold for every such model.
-/

namespace SouffleMod

/-- Bit width of `RamDomain` (`RAM_DOMAIN_SIZE`, default build: 32). -/
def RAM_DOMAIN_SIZE : Nat := 32

/-- Number of distinct `RamDomain` bit patterns, `2 ^ RAM_DOMAIN_SIZE`. -/
def domainCard : Nat := 2 ^ RAM_DOMAIN_SIZE

/-- A `RamDomain` value, represented by its bit pattern (a `Nat < 2^32`). -/
abbrev Domain := Nat

/-- `ramBitCast<RamSigned>`: two's-complement signed reinterpretation of a
bit pattern. -/
def toSigned (d : Domain) : Int :=
  if d < 2 ^ (RAM_DOMAIN_SIZE - 1) then (d : Int) else (d : Int) - (domainCard : Int)

/-- `ramBitCast<RamDomain>` applied to a `RamSigned`: the bit pattern of a
signed value (two's complement). -/
def ofSigned (i : Int) : Domain := (i % (domainCard : Int)).toNat

/-- Bit pattern of `MIN_RAM_SIGNED` (`-2^31`). -/
def minSignedPat : Domain := ofSigned (-(2 ^ (RAM_DOMAIN_SIZE - 1) : Int))

/-- Bit pattern of `MAX_RAM_SIGNED` (`2^31 - 1`). -/
def maxSignedPat : Domain := ofSigned ((2 ^ (RAM_DOMAIN_SIZE - 1) : Int) - 1)

/-- Bit pattern of `MAX_RAM_UNSIGNED` (`2^32 - 1`). -/
def maxUnsignedPat : Domain := domainCard - 1

/-!  ### C1 — integer DIV (`Engine.cpp`, `BINARY_OP_NUMERIC(DIV, /)`)

The `IntrinsicOperator` case expands `BINARY_OP_NUMERIC(DIV, /)` into
`case FunctorOp::DIV: return ramBitCast(static_cast<RamSigned>(
    ramBitCast<RamSigned>(lhs) / ramBitCast<RamSigned>(rhs)));`
and the analogous `UDIV` case over `RamUnsigned`.  There is no check of the
right operand and no diagnostic output in these cases; C++ integer division
with a zero divisor (and `INT_MIN / -1`) is undefined behaviour, modelled
here as `none`.  The second component is the list of warnings printed to the
diagnostic channel (`std::cerr`), which for DIV is always empty. -/

/-- `FunctorOp::DIV`: signed division of the two evaluated children.
`Int.tdiv` truncates toward zero exactly as C++ `/` does. -/
def execDIV (a b : Domain) : Option Domain × List String :=
  (if toSigned b = 0 then none
   else if toSigned a = -(2 ^ (RAM_DOMAIN_SIZE - 1) : Int) ∧ toSigned b = -1 then none
   else some (ofSigned (Int.tdiv (toSigned a) (toSigned b))), [])

/-- `FunctorOp::UDIV`: unsigned division of the two evaluated children. -/
def execUDIV (a b : Domain) : Option Domain × List String :=
  (if b = 0 then none else some (a / b), [])

/-!  ### C2 — `Loop` and the iteration counter

`Engine.cpp` case `Loop`:
```
resetIterationNumber();
while (execute(shadow.getChild(), ctxt)) { incIterationNumber(); }
resetIterationNumber();
return true;
```
with `resetIterationNumber` setting `iteration = 0` and `incIterationNumber`
doing `++iteration`.  The engine state is modelled as the iteration counter
plus an abstract remainder `store` (relations etc.); the loop body is an
arbitrary state transformer returning the continuation flag.  The `while`
loop is given explicit fuel; `none` models a run that has not terminated
within the fuel. -/

/-- Engine state: the iteration counter plus abstract remaining state. -/
structure EngineState (α : Type) where
  iteration : Nat
  store : α
  deriving DecidableEq, Repr

/-- `Engine::resetIterationNumber`: `iteration = 0`. -/
def resetIterationNumber {α} (s : EngineState α) : EngineState α :=
  { s with iteration := 0 }

/-- `Engine::incIterationNumber`: `++iteration`. -/
def incIterationNumber {α} (s : EngineState α) : EngineState α :=
  { s with iteration := s.iteration + 1 }

/-- The `while (execute(body)) { incIterationNumber(); }` loop, fuelled. -/
def loopWhile {α} (body : EngineState α → EngineState α × Bool) :
    Nat → EngineState α → Option (EngineState α)
  | 0, _ => none
  | fuel + 1, s =>
    match body s with
    | (s', false) => some s'
    | (s', true) => loopWhile body fuel (incIterationNumber s')

/-- `Engine::execute`, case `Loop`: reset the counter, run the body while it
returns true (incrementing the counter each pass), reset the counter again,
return true. -/
def execLoop {α} (body : EngineState α → EngineState α × Bool) (fuel : Nat)
    (s : EngineState α) : Option (EngineState α) :=
  (loopWhile body fuel (resetIterationNumber s)).map resetIterationNumber

/-!  ### C7 — `Sequence` and `Parallel` statement nodes

`Engine.cpp` cases `Sequence` and `Parallel` are textually identical loops:
iterate the children in order, returning `false` as soon as one child
evaluates to `false`, and `true` if all children succeed.  Children are
modelled as state transformers returning their boolean result. -/

/-- `Engine::execute`, case `Sequence`. -/
def execSequence {σ : Type} : List (σ → σ × Bool) → σ → σ × Bool
  | [], s => (s, true)
  | c :: cs, s =>
    match c s with
    | (s', false) => (s', false)
    | (s', true) => execSequence cs s'

/-- `Engine::execute`, case `Parallel` (the statement-level node; its body is
the same serial child loop as `Sequence`). -/
def execParallel {σ : Type} : List (σ → σ × Bool) → σ → σ × Bool
  | [], s => (s, true)
  | c :: cs, s =>
    match c s with
    | (s', false) => (s', false)
    | (s', true) => execParallel cs s'

/-!  ### C8 — shift intrinsics

`Engine.cpp`:
```
constexpr RamDomain RAM_BIT_SHIFT_MASK = RAM_DOMAIN_SIZE - 1;
#define BINARY_OP_SHIFT_MASK(ty, op)
    return ramBitCast(EVAL_CHILD(ty, 0) op (EVAL_CHILD(ty, 1) & RAM_BIT_SHIFT_MASK))
BINARY_OP_INTEGRAL_SHIFT(BSHIFT_L         , <<, RamUnsigned, RamUnsigned)
BINARY_OP_INTEGRAL_SHIFT(BSHIFT_R         , >>, RamSigned  , RamUnsigned)
BINARY_OP_INTEGRAL_SHIFT(BSHIFT_R_UNSIGNED, >>, RamUnsigned, RamUnsigned)
```
Each `BINARY_OP_INTEGRAL_SHIFT(opcode, op, tySigned, tyUnsigned)` expands to
a `FunctorOp::opcode` case over `tySigned` and a `FunctorOp::U##opcode` case
over `tyUnsigned`.  For the `RamSigned` instantiation of `BSHIFT_R` the
masked shift amount `signed & 31` has the same low five bits as the operand
pattern, so it is written below as the `Nat` operation `b &&& mask` on the
pattern; C++ `>>` on a signed operand is the arithmetic shift, embedded via
`Int.shiftRight` on the signed reinterpretation.  Unsigned `<<` wraps
modulo `2^32`. -/

/-- `RAM_BIT_SHIFT_MASK = RAM_DOMAIN_SIZE - 1`. -/
def RAM_BIT_SHIFT_MASK : Domain := RAM_DOMAIN_SIZE - 1

/-- The six shift opcodes of the `IntrinsicOperator` case. -/
inductive ShiftOp where
  | BSHIFT_L | UBSHIFT_L
  | BSHIFT_R | UBSHIFT_R
  | BSHIFT_R_UNSIGNED | UBSHIFT_R_UNSIGNED
  deriving DecidableEq, Repr

/-- The `FunctorOp::*SHIFT*` cases of `Engine::execute`. -/
def execShiftOp : ShiftOp → Domain → Domain → Domain
  | .BSHIFT_L, a, b => (a <<< (b &&& RAM_BIT_SHIFT_MASK)) % domainCard
  | .UBSHIFT_L, a, b => (a <<< (b &&& RAM_BIT_SHIFT_MASK)) % domainCard
  | .BSHIFT_R, a, b => ofSigned (toSigned a >>> (b &&& RAM_BIT_SHIFT_MASK))
  | .UBSHIFT_R, a, b => a >>> (b &&& RAM_BIT_SHIFT_MASK)
  | .BSHIFT_R_UNSIGNED, a, b => a >>> (b &&& RAM_BIT_SHIFT_MASK)
  | .UBSHIFT_R_UNSIGNED, a, b => a >>> (b &&& RAM_BIT_SHIFT_MASK)

/-!  ### C9 — `FunctorOp::SUBSTR`

`Engine.cpp`:
```
auto symbol = execute(shadow.getChild(0), ctxt);
const std::string& str = getSymbolTable().decode(symbol);
auto idx = execute(shadow.getChild(1), ctxt);
auto len = execute(shadow.getChild(2), ctxt);
std::string sub_str;
try {
    sub_str = str.substr(idx, len);
} catch (std::out_of_range&) {
    std::cerr << "warning: wrong index position provided by substr(...)...";
}
return getSymbolTable().encode(sub_str);
```
`idx` and `len` are `RamDomain` values implicitly converted to `size_t`
(sign extension modulo `2^64`).  `std::string::substr(pos, count)` throws
`std::out_of_range` exactly when `pos > size()`, and otherwise returns the
characters `[pos, pos + min(count, size() - pos))`.  The symbol table is
abstracted as an encode/decode pair; decoded symbols are modelled as Lean
strings (sequences of characters standing for the C++ bytes).  The second
component of the result is the list of warnings printed to `std::cerr`
(message text abbreviated to a fixed string). -/

/-- The symbol table interface used by the engine (`encode`/`decode`). -/
structure SymbolTable where
  encode : String → Domain
  decode : Domain → String

/-- Implicit C++ conversion of a `RamDomain` to `size_t`: sign-extend and
reinterpret modulo `2^64`. -/
def toSizeT (d : Domain) : Nat :=
  ((toSigned d) % (18446744073709551616 : Int)).toNat

/-- `Engine::execute`, case `FunctorOp::SUBSTR`. -/
def evalSUBSTR (st : SymbolTable) (s i n : Domain) : Domain × List String :=
  let str := st.decode s
  let idx := toSizeT i
  let len := toSizeT n
  if str.length < idx then
    (st.encode "", ["warning: wrong index position provided by substr functor."])
  else
    (st.encode (String.mk ((str.data.drop idx).take len)), [])

/-- Concrete symbol table for the C9 counterexample: every symbol decodes to
`"hi"` and a string encodes to its length (so distinct lengths give
distinct symbols). -/
def substrCE : SymbolTable :=
  { encode := fun t => t.length, decode := fun _ => "hi" }

/-!  ### C3 — `Engine::evalAggregate`

`Engine.cpp` initializes `res = initValue(aggregator, ...)` and
`shouldRunNested = runNested(aggregator)`, folds over the candidate tuples
(skipping those failing the filter, setting `shouldRunNested = true` for
each passing tuple, special-casing COUNT, and otherwise combining the
evaluated target expression into the accumulator), applies the MEAN
post-division when the count is non-zero, writes the 1-tuple `(res)` to
`ctxt[aggregate.getTupleId()]`, and finally returns `true` if
`shouldRunNested` is false and `execute(nestedOperation)` otherwise.

Candidate tuples are abstracted as an arbitrary type `τ`; the filter and the
target expression are evaluated under the context binding the candidate
tuple, hence modelled as functions of it.  The nested operation reads the
bound 1-tuple, hence is a function of the bound value.  `RamFloat`
arithmetic (host IEEE-754) is abstracted as a `FloatModel`.  The result is
the triple `(returned value, shouldRunNested, value bound to the tuple-id)`. -/

/-- `AggregateOp` (ram): the intrinsic aggregation functions. -/
inductive AggregateOp where
  | MIN | UMIN | FMIN | MAX | UMAX | FMAX | SUM | USUM | FSUM | MEAN | COUNT
  deriving DecidableEq, Repr

/-- `ram::Aggregator`: an `IntrinsicAggregator` holding an `AggregateOp`, or
a `UserDefinedAggregator` (only the stateful kind reaches `evalAggregate`). -/
inductive Aggregator where
  | intrinsic : AggregateOp → Aggregator
  | userDefined : Aggregator
  deriving DecidableEq, Repr

/-- `runNested` (Engine.cpp): true for COUNT, FSUM, USUM, SUM and
user-defined aggregators, false otherwise. -/
def runNested : Aggregator → Bool
  | .intrinsic .COUNT => true
  | .intrinsic .FSUM => true
  | .intrinsic .USUM => true
  | .intrinsic .SUM => true
  | .intrinsic _ => false
  | .userDefined => true

/-- Abstraction of host `RamFloat` (IEEE-754) arithmetic used by the
aggregate loop: bit-casts, addition, division, increment, a zero test and
min/max plus the `MAX_RAM_FLOAT` / `MIN_RAM_FLOAT` constants. -/
structure FloatModel where
  F : Type
  zero : F
  ofDomain : Domain → F
  toDomain : F → Domain
  add : F → F → F
  div : F → F → F
  inc : F → F
  isZero : F → Bool
  fmin : F → F → F
  fmax : F → F → F
  maxFloat : F
  minFloat : F

/-- `Engine::initValue`: the identity element of each aggregator; a
user-defined aggregator evaluates its init expression (abstracted as
`userInit`). -/
def initValue (fm : FloatModel) (agg : Aggregator) (userInit : Domain) : Domain :=
  match agg with
  | .intrinsic .MIN => maxSignedPat
  | .intrinsic .UMIN => maxUnsignedPat
  | .intrinsic .FMIN => fm.toDomain fm.maxFloat
  | .intrinsic .MAX => minSignedPat
  | .intrinsic .UMAX => 0
  | .intrinsic .FMAX => fm.toDomain fm.minFloat
  | .intrinsic .SUM => 0
  | .intrinsic .USUM => 0
  | .intrinsic .FSUM => fm.toDomain fm.zero
  | .intrinsic .MEAN => 0
  | .intrinsic .COUNT => 0
  | .userDefined => userInit

/-- The mutable loop state of `evalAggregate`: the accumulator `res`, the
MEAN `(sum, count)` pair and the `shouldRunNested` flag. -/
structure AggState (F : Type) where
  res : Domain
  meanSum : F
  meanCount : F
  shouldRunNested : Bool

/-- One pass of the `for (const auto& tuple : ranges)` loop of
`evalAggregate`: skip tuples failing the filter; otherwise set
`shouldRunNested`, increment on COUNT, and for the other aggregators
combine the evaluated target expression into the accumulator (signed
arithmetic wraps two's-complement, unsigned wraps modulo `2^32`). -/
def aggStep {τ : Type} (fm : FloatModel) (agg : Aggregator)
    (uda : Domain → Domain → Domain) (filter : τ → Bool) (expr : τ → Domain)
    (st : AggState fm.F) (t : τ) : AggState fm.F :=
  if ¬ filter t then st
  else if agg = .intrinsic .COUNT then
    { st with res := (st.res + 1) % domainCard, shouldRunNested := true }
  else
    let val := expr t
    match agg with
    | .intrinsic .MIN =>
        { st with res := ofSigned (min (toSigned st.res) (toSigned val)),
                  shouldRunNested := true }
    | .intrinsic .FMIN =>
        { st with res := fm.toDomain (fm.fmin (fm.ofDomain st.res) (fm.ofDomain val)),
                  shouldRunNested := true }
    | .intrinsic .UMIN =>
        { st with res := min st.res val, shouldRunNested := true }
    | .intrinsic .MAX =>
        { st with res := ofSigned (max (toSigned st.res) (toSigned val)),
                  shouldRunNested := true }
    | .intrinsic .FMAX =>
        { st with res := fm.toDomain (fm.fmax (fm.ofDomain st.res) (fm.ofDomain val)),
                  shouldRunNested := true }
    | .intrinsic .UMAX =>
        { st with res := max st.res val, shouldRunNested := true }
    | .intrinsic .SUM =>
        { st with res := (st.res + val) % domainCard, shouldRunNested := true }
    | .intrinsic .FSUM =>
        { st with res := fm.toDomain (fm.add (fm.ofDomain st.res) (fm.ofDomain val)),
                  shouldRunNested := true }
    | .intrinsic .USUM =>
        { st with res := (st.res + val) % domainCard, shouldRunNested := true }
    | .intrinsic .MEAN =>
        { st with meanSum := fm.add st.meanSum (fm.ofDomain val),
                  meanCount := fm.inc st.meanCount, shouldRunNested := true }
    | .intrinsic .COUNT => st
    | .userDefined =>
        { st with res := uda st.res val, shouldRunNested := true }

/-- `Engine::evalAggregate`.  Returns `(returned value, shouldRunNested,
value bound to the aggregate tuple-id)`: the 1-tuple `(res)` is written to
the context unconditionally before the `shouldRunNested` test, and the final
return value is `execute(nested)` exactly when `shouldRunNested` holds
(`true`, i.e. 1, otherwise). -/
def evalAggregate {τ : Type} (fm : FloatModel) (agg : Aggregator) (userInit : Domain)
    (uda : Domain → Domain → Domain) (tuples : List τ) (filter : τ → Bool)
    (expr : τ → Domain) (nested : Domain → Domain) : Domain × Bool × Domain :=
  let st0 : AggState fm.F :=
    ⟨initValue fm agg userInit, fm.zero, fm.zero, runNested agg⟩
  let st := tuples.foldl (aggStep fm agg uda filter expr) st0
  let res :=
    if agg = .intrinsic .MEAN && !(fm.isZero st.meanCount) then
      fm.toDomain (fm.div st.meanSum st.meanCount)
    else st.res
  (if st.shouldRunNested then nested res else 1, st.shouldRunNested, res)

/-!  ### C4, C5 — `evalExistenceCheck` and `evalProvenanceExistenceCheck`

A `souffle::Tuple<RamDomain, Arity>` is a function `Fin Arity → Domain`.
The prepared super-instruction carries the generation-time constant
templates `first`/`second` (copied wholesale into the bound tuples by
`TUPLE_COPY_FROM`), the `tupleFirst` entries `[dst, tupleId, element]`
(runtime reads from the context) and the `exprFirst` entries (runtime
subexpressions, abstracted here by the value they evaluate to during this
check).  The context is abstracted as the map from tuple-id and element to
the current value; an index view is abstracted by its `contains` /
`contains(lo, hi)` / `range(lo, hi)` answers. -/

/-- The evaluation context as read by super-instructions:
`ctxt[tupleId][element]`. -/
def Ctxt := Nat → Nat → Domain

/-- A prepared super-instruction (`SuperInstruction` in the shadow IR). -/
structure SuperInstruction (A : Nat) where
  first : Fin A → Domain
  second : Fin A → Domain
  tupleFirst : List (Fin A × Nat × Nat)
  tupleSecond : List (Fin A × Nat × Nat)
  exprFirst : List (Fin A × Domain)
  exprSecond : List (Fin A × Domain)

/-- An index view, abstracted by its query answers. -/
structure IndexView (A : Nat) where
  containsPoint : (Fin A → Domain) → Bool
  containsRange : (Fin A → Domain) → (Fin A → Domain) → Bool
  range : (Fin A → Domain) → (Fin A → Domain) → List (Fin A → Domain)

/-- Apply a sequence of `dst := value` writes to a tuple, in order. -/
def applyWrites {A : Nat} (l : List (Fin A × Domain)) (t : Fin A → Domain) :
    Fin A → Domain :=
  l.foldl (fun t e => Function.update t e.1 e.2) t

/-- The writes performed by a `tupleFirst` loop:
`tuple[e[0]] = ctxt[e[1]][e[2]]` for each entry, in order. -/
def tupleWrites {A : Nat} (ctxt : Ctxt) (l : List (Fin A × Nat × Nat)) :
    List (Fin A × Domain) :=
  l.map (fun e => (e.1, ctxt e.2.1 e.2.2))

/-- The lower search bound of `evalExistenceCheck` (also the point tuple of
a total search): `superInfo.first`, then the `tupleFirst` writes, then the
`exprFirst` writes. -/
def existLow {A : Nat} (si : SuperInstruction A) (ctxt : Ctxt) : Fin A → Domain :=
  applyWrites si.exprFirst (applyWrites (tupleWrites ctxt si.tupleFirst) si.first)

/-- The upper search bound of `evalExistenceCheck`: `superInfo.second`, then
the same `tupleFirst`/`exprFirst` writes (`high[...] = low[...]` writes the
very value just written to `low`). -/
def existHigh {A : Nat} (si : SuperInstruction A) (ctxt : Ctxt) : Fin A → Domain :=
  applyWrites si.exprFirst (applyWrites (tupleWrites ctxt si.tupleFirst) si.second)

/-- `Engine::evalExistenceCheck`: a total search builds the point tuple and
answers `view.contains(t)`; otherwise the `(low, high)` pair is built and
the answer is `view.contains(low, high)`. -/
def evalExistenceCheck {A : Nat} (si : SuperInstruction A) (isTotal : Bool)
    (ctxt : Ctxt) (view : IndexView A) : Bool :=
  if isTotal then view.containsPoint (existLow si ctxt)
  else view.containsRange (existLow si ctxt) (existHigh si ctxt)

/-- A column is fixed at runtime by the super-instruction iff some
`tupleFirst` or `exprFirst` write targets it. -/
def touched {A : Nat} (si : SuperInstruction A) (i : Fin A) : Bool :=
  si.tupleFirst.any (fun e => e.1 = i) || si.exprFirst.any (fun e => e.1 = i)

/-- The lower bound of `evalProvenanceExistenceCheck`: the existence-check
lower bound with the trailing `(rule, level)` columns forced to
`MIN_RAM_SIGNED`. -/
def provLow {A : Nat} (si : SuperInstruction (A + 2)) (ctxt : Ctxt) :
    Fin (A + 2) → Domain :=
  Function.update
    (Function.update (existLow si ctxt) ⟨A, by omega⟩ minSignedPat)
    ⟨A + 1, by omega⟩ minSignedPat

/-- The upper bound of `evalProvenanceExistenceCheck`: the existence-check
upper bound with the trailing `(rule, level)` columns forced to
`MAX_RAM_SIGNED`. -/
def provHigh {A : Nat} (si : SuperInstruction (A + 2)) (ctxt : Ctxt) :
    Fin (A + 2) → Domain :=
  Function.update
    (Function.update (existHigh si ctxt) ⟨A, by omega⟩ maxSignedPat)
    ⟨A + 1, by omega⟩ maxSignedPat

/-- `Engine::evalProvenanceExistenceCheck`: build `(low, high)`, take
`view.range(low, high)`; if the range is empty return false, otherwise
compare the level column (`Arity - 1`) of its first tuple with the
evaluated caller expression (`RamDomain`, i.e. signed, comparison). -/
def evalProvenanceExistenceCheck {A : Nat} (si : SuperInstruction (A + 2))
    (ctxt : Ctxt) (view : IndexView (A + 2)) (threshold : Domain) : Bool :=
  match view.range (provLow si ctxt) (provHigh si ctxt) with
  | [] => false
  | t :: _ => decide (toSigned (t ⟨A + 1, by omega⟩) ≤ toSigned threshold)

/-!  ### C6, C10 — the hard-coded external-adapter relation

`LLMQueryRelationWrapper.h` wraps an internal B-tree relation behind a
lazy one-shot load (`loadDataIfNeeded`), guarded by the mutable
`dataLoaded` flag.  `Engine.cpp` special-cases the relation name
`R_5coref4java8Callable16getBelongedClass`: the `Insert` case returns
`true` immediately without touching any relation, and the
`EmptinessCheck` case answers with the wrapper's `isEmpty()` instead of
the standard `rel.empty()`.

Tuples are modelled as `List Domain`; the internal B-tree relation as the
list of its tuples with set-semantics insertion.  The external world read
by `loadDataIfNeeded` (the relation map lookup of
`R_5coref4java8Callable7getName` and the tuples produced by the SQLite
queries) is abstracted as an `ExternalEnv`. -/

/-- State of an `LLMQueryRelationWrapper`: the `dataLoaded` flag and the
internal B-tree relation's contents. -/
structure LLMQueryRelationWrapper where
  dataLoaded : Bool
  internal : List (List Domain)
  deriving DecidableEq, Repr

/-- The external world read by `loadDataIfNeeded`: whether the relation map
holds the target relation `R_5coref4java8Callable7getName`, and the tuples
the class/method queries produce for insertion. -/
structure ExternalEnv where
  targetPresent : Bool
  externTuples : List (List Domain)
  deriving DecidableEq, Repr

/-- Set-semantics insertion into a relation's tuple list. -/
def insertTuple (t : List Domain) (l : List (List Domain)) : List (List Domain) :=
  if t ∈ l then l else l ++ [t]

/-- `LLMQueryRelationWrapper::loadDataIfNeeded`: return immediately when
`dataLoaded` is set; return without setting the flag when the target
relation is missing from the relation map; otherwise insert the externally
produced tuples into the internal relation and set `dataLoaded`. -/
def loadDataIfNeeded (env : ExternalEnv) (w : LLMQueryRelationWrapper) :
    LLMQueryRelationWrapper :=
  if w.dataLoaded then w
  else if ¬ env.targetPresent then w
  else
    { dataLoaded := true,
      internal := env.externTuples.foldl (fun l t => insertTuple t l) w.internal }

/-- `begin()`: load if needed, then iterate the internal relation. -/
def llmBegin (env : ExternalEnv) (w : LLMQueryRelationWrapper) :
    LLMQueryRelationWrapper × List (List Domain) :=
  (loadDataIfNeeded env w, (loadDataIfNeeded env w).internal)

/-- `end()`: load if needed, then delegate to the internal relation. -/
def llmEnd (env : ExternalEnv) (w : LLMQueryRelationWrapper) :
    LLMQueryRelationWrapper × List (List Domain) :=
  (loadDataIfNeeded env w, (loadDataIfNeeded env w).internal)

/-- `insert(tuple)`: load if needed and ignore the tuple. -/
def llmInsert (env : ExternalEnv) (w : LLMQueryRelationWrapper)
    (_t : List Domain) : LLMQueryRelationWrapper :=
  loadDataIfNeeded env w

/-- `contains(tuple)`: load if needed, then ask the internal relation. -/
def llmContains (env : ExternalEnv) (w : LLMQueryRelationWrapper)
    (t : List Domain) : LLMQueryRelationWrapper × Bool :=
  (loadDataIfNeeded env w, decide (t ∈ (loadDataIfNeeded env w).internal))

/-- `size()`: load if needed, then the internal relation's size. -/
def llmSize (env : ExternalEnv) (w : LLMQueryRelationWrapper) :
    LLMQueryRelationWrapper × Nat :=
  (loadDataIfNeeded env w, (loadDataIfNeeded env w).internal.length)

/-- `isEmpty()`: `!dataLoaded || internalRelation->empty()`, with no call to
`loadDataIfNeeded` (the state is returned unchanged). -/
def llmIsEmpty (w : LLMQueryRelationWrapper) : LLMQueryRelationWrapper × Bool :=
  (w, !w.dataLoaded || w.internal.isEmpty)

/-- `purge()`: purge the internal relation and clear `dataLoaded` so a later
access reloads. -/
def llmPurge (_w : LLMQueryRelationWrapper) : LLMQueryRelationWrapper :=
  { dataLoaded := false, internal := [] }

/-- `printStats(...)`: load if needed, then delegate. -/
def llmPrintStats (env : ExternalEnv) (w : LLMQueryRelationWrapper) :
    LLMQueryRelationWrapper :=
  loadDataIfNeeded env w

/-- `getIndexOrder(idx)`: load if needed, then delegate. -/
def llmGetIndexOrder (env : ExternalEnv) (w : LLMQueryRelationWrapper) :
    LLMQueryRelationWrapper :=
  loadDataIfNeeded env w

/-- `createView(indexPos)`: load if needed, then delegate. -/
def llmCreateView (env : ExternalEnv) (w : LLMQueryRelationWrapper) :
    LLMQueryRelationWrapper :=
  loadDataIfNeeded env w

/-- The hard-coded relation name special-cased by `Engine::execute`. -/
def specialRelName : String := "R_5coref4java8Callable16getBelongedClass"

/-- Relation contents keyed by relation name. -/
def RelStore := String → List (List Domain)

/-- `Engine::execute`, case `Insert`: if the target relation is the
hard-coded name, return `true` immediately; otherwise `evalInsert` builds
the tuple (already built here) and inserts it into the target relation,
returning `true`. -/
def execInsertCase (rels : RelStore) (name : String) (tuple : List Domain) :
    Bool × RelStore :=
  if name = specialRelName then (true, rels)
  else (true, fun n => if n = name then insertTuple tuple (rels n) else rels n)

/-- `Engine::execute`, case `EmptinessCheck`: if the relation is the
hard-coded name, answer with the adapter's `isEmpty()`; otherwise answer
with the standard relation's `empty()`. -/
def execEmptinessCheckCase (rels : RelStore) (llm : LLMQueryRelationWrapper)
    (name : String) : Bool :=
  if name = specialRelName then (llmIsEmpty llm).2
  else (rels name).isEmpty

/-- Concrete fixture: an arity-2 super-instruction whose only runtime write
is `tuple[0] = ctxt[0][0]`, with constant templates 0 (low) and 1 (high). -/
def si0 : SuperInstruction 2 :=
  ⟨fun _ => 0, fun _ => 1, [(0, 0, 0)], [], [], []⟩

/-- Concrete fixture: a context in which every slot holds 7. -/
def ctxt0 : Ctxt := fun _ _ => 7

/-- Concrete fixture: a view over an empty index. -/
def view0 : IndexView 2 :=
  ⟨fun _ => false, fun _ _ => false, fun _ _ => []⟩

/-!  ## Theorems for C1, C2, C7 -/

/-- C1 counterexample: evaluating the signed DIV intrinsic with right
operand 0 (at left operand 1) does not both emit a warning and return 0 —
the engine emits no warning at all and produces no defined result. -/
theorem div_by_zero_claim_fails_at_one_zero :
    ¬ ((execDIV 1 0).2 ≠ [] ∧ (execDIV 1 0).1 = some (ofSigned 0)) := by
  decide

/-- C1 (amended): for every evaluation of an integer DIV intrinsic (signed or
unsigned) whose right operand evaluates to 0, the engine performs the raw C++
division, which is undefined behaviour: no warning is emitted on the
diagnostic channel and no defined value (in particular not 0) is returned. -/
theorem div_by_zero_is_undefined_without_warning (a b : Domain)
    (hb : b = 0) :
    execDIV a b = (none, []) ∧ execUDIV a b = (none, []) := by
  subst hb
  constructor
  · simp [execDIV, toSigned, RAM_DOMAIN_SIZE]
  · simp [execUDIV]

/-- C1 witness: the amended theorem evaluated at `a = 7`, `b = 0`. -/
theorem div_by_zero_is_undefined_without_warning_witness :
    execDIV 7 0 = (none, []) ∧ execUDIV 7 0 = (none, []) :=
  div_by_zero_is_undefined_without_warning 7 0 rfl

/-- C2 counterexample: with the iteration counter at 5 before entering a
`Loop` whose body immediately returns false, the counter after the `Loop` is
0, not the saved prior value 5. -/
theorem loop_counter_not_restored_at_five :
    execLoop (fun s => (s, false)) 1 (⟨5, ()⟩ : EngineState Unit) =
      some (⟨0, ()⟩ : EngineState Unit) ∧ (0 : Nat) ≠ 5 := by
  constructor
  · rfl
  · decide

/-- C2 (amended): for every `Loop` statement the engine resets the iteration
counter to 0 on entry (so the run is independent of the prior counter value:
any prior value `n` gives the same result), increments it once per body
pass, and resets it to 0 again on exit — after the `Loop` returns the counter
is 0, not the value from before the `Loop` was entered. -/
theorem loop_resets_counter_on_exit {α} (body : EngineState α → EngineState α × Bool)
    (fuel n : Nat) (s s' : EngineState α)
    (h : execLoop body fuel s = some s') :
    s'.iteration = 0 ∧ execLoop body fuel ⟨n, s.store⟩ = some s' := by
  constructor
  · unfold execLoop at h
    rcases Option.map_eq_some'.mp h with ⟨t, _, ht⟩
    simp [← ht, resetIterationNumber]
  · unfold execLoop at h ⊢
    simpa [resetIterationNumber] using h

/-- C2 witness: the amended theorem applied at a concrete body, fuel 1,
prior counter 5, alternative prior counter 9. -/
theorem loop_resets_counter_on_exit_witness :
    (⟨0, ()⟩ : EngineState Unit).iteration = 0 ∧
      execLoop (fun s => (s, false)) 1 (⟨9, ()⟩ : EngineState Unit) =
        some (⟨0, ()⟩ : EngineState Unit) :=
  loop_resets_counter_on_exit (fun s => (s, false)) 1 9 ⟨5, ()⟩ ⟨0, ()⟩ rfl

/-- C7: the `Parallel` statement node and the `Sequence` statement node have
identical observable semantics — both run their children serially in
declaration order, stop and return false as soon as a child returns false,
and return true when all children return true (the code of the two cases is
the same serial loop; the `Parallel` statement fans nothing across
threads). -/
theorem parallel_statement_equals_sequence {σ : Type}
    (children : List (σ → σ × Bool)) (s : σ) :
    execParallel children s = execSequence children s := by
  induction children generalizing s with
  | nil => rfl
  | cons c cs ih =>
    unfold execParallel execSequence
    rcases c s with ⟨s', b⟩
    cases b
    · simp
    · simpa using ih s'

lemma land_mask_eq_mod (b : Nat) : b &&& RAM_BIT_SHIFT_MASK = b % RAM_DOMAIN_SIZE := by
  have h := Nat.and_pow_two_sub_one_eq_mod b 5
  simpa [RAM_BIT_SHIFT_MASK, RAM_DOMAIN_SIZE] using h

lemma toSigned_eq (a : Domain) :
    toSigned a =
      if a < 2147483648 then (a : Int) else (a : Int) - ((4294967296 : Nat) : Int) := by
  unfold toSigned domainCard RAM_DOMAIN_SIZE
  norm_num

lemma ofSigned_eq (x : Int) : ofSigned x = (x % ((4294967296 : Nat) : Int)).toNat := by
  unfold ofSigned domainCard RAM_DOMAIN_SIZE
  norm_num

lemma pow31_int_eq : (2 ^ (RAM_DOMAIN_SIZE - 1) : Int) = ((2147483648 : Nat) : Int) := by
  norm_num [RAM_DOMAIN_SIZE]

lemma toSigned_bounds (a : Domain) (ha : a < domainCard) :
    -(2 ^ (RAM_DOMAIN_SIZE - 1) : Int) ≤ toSigned a ∧
      toSigned a < (2 ^ (RAM_DOMAIN_SIZE - 1) : Int) := by
  have ha' : (a : Int) < 4294967296 := by
    have h : a < 4294967296 := by
      norm_num [domainCard, RAM_DOMAIN_SIZE] at ha
      exact ha
    exact_mod_cast h
  have h0 : (0 : Int) ≤ (a : Int) := Int.natCast_nonneg a
  rw [toSigned_eq, pow31_int_eq]
  push_cast
  split
  · rename_i h
    have h' : (a : Int) < 2147483648 := by exact_mod_cast h
    constructor <;> linarith
  · rename_i h
    have h' : (2147483648 : Int) ≤ (a : Int) := by exact_mod_cast Nat.le_of_not_lt h
    constructor <;> linarith

lemma toSigned_ofSigned (x : Int)
    (h1 : -(2 ^ (RAM_DOMAIN_SIZE - 1) : Int) ≤ x)
    (h2 : x < (2 ^ (RAM_DOMAIN_SIZE - 1) : Int)) :
    toSigned (ofSigned x) = x := by
  rw [pow31_int_eq] at h1 h2
  have h1' : -(2147483648 : Int) ≤ x := by push_cast at h1; exact h1
  have h2' : x < (2147483648 : Int) := by push_cast at h2; exact h2
  rw [ofSigned_eq, toSigned_eq]
  rcases le_or_lt 0 x with hx | hx
  · have hmod : x % ((4294967296 : Nat) : Int) = x := by
      push_cast
      exact Int.emod_eq_of_lt hx (by linarith)
    rw [hmod]
    have ht : (x.toNat : Int) = x := Int.toNat_of_nonneg hx
    have hcond : x.toNat < 2147483648 := by
      have hc : ((x.toNat : Int)) < 2147483648 := by rw [ht]; exact h2'
      exact_mod_cast hc
    rw [if_pos hcond, ht]
  · have h0 : (0 : Int) ≤ x + 4294967296 := by linarith
    have hlt : x + 4294967296 < 4294967296 := by linarith
    have hmod : x % ((4294967296 : Nat) : Int) = x + 4294967296 := by
      push_cast
      have hrw : (x + 4294967296) % (4294967296 : Int) = x % 4294967296 := by
        have h := Int.add_mul_emod_self_left (a := x) (b := (4294967296 : Int)) (c := 1)
        rw [mul_one] at h
        exact h
      rw [← hrw]
      exact Int.emod_eq_of_lt h0 hlt
    rw [hmod]
    have ht : ((x + 4294967296).toNat : Int) = x + 4294967296 := Int.toNat_of_nonneg h0
    have hcond : ¬ (x + 4294967296).toNat < 2147483648 := by
      intro hc
      have hc' : ((x + 4294967296).toNat : Int) < 2147483648 := by exact_mod_cast hc
      rw [ht] at hc'
      linarith
    rw [if_neg hcond, ht]
    push_cast
    ring

/-- C8: for every shift intrinsic and all operand bit patterns, the shift
amount is the right operand masked by `RAM_DOMAIN_SIZE - 1`, i.e. taken
modulo the bit width; both left shifts are computed on the unsigned
reinterpretation of the left operand (multiplication modulo `2^32`); the
signed right shift is arithmetic (floor division of the signed value) while
`UBSHIFT_R`, `BSHIFT_R_UNSIGNED` and `UBSHIFT_R_UNSIGNED` are logical
(division of the unsigned value). -/
theorem shift_ops_mask_and_semantics (a b : Domain) (ha : a < domainCard) :
    b &&& RAM_BIT_SHIFT_MASK = b % RAM_DOMAIN_SIZE ∧
    execShiftOp .BSHIFT_L a b = a * 2 ^ (b % RAM_DOMAIN_SIZE) % domainCard ∧
    execShiftOp .UBSHIFT_L a b = a * 2 ^ (b % RAM_DOMAIN_SIZE) % domainCard ∧
    toSigned (execShiftOp .BSHIFT_R a b) =
      toSigned a / (2 ^ (b % RAM_DOMAIN_SIZE) : Int) ∧
    execShiftOp .UBSHIFT_R a b = a / 2 ^ (b % RAM_DOMAIN_SIZE) ∧
    execShiftOp .BSHIFT_R_UNSIGNED a b = a / 2 ^ (b % RAM_DOMAIN_SIZE) ∧
    execShiftOp .UBSHIFT_R_UNSIGNED a b = a / 2 ^ (b % RAM_DOMAIN_SIZE) := by
  have hmask := land_mask_eq_mod b
  have hsL : ∀ s : Nat, (a <<< s) % domainCard = a * 2 ^ s % domainCard := by
    intro s; rw [Nat.shiftLeft_eq]
  have hsR : ∀ s : Nat, a >>> s = a / 2 ^ s := fun s => Nat.shiftRight_eq_div_pow a s
  refine ⟨hmask, ?_, ?_, ?_, ?_, ?_, ?_⟩
  · simpa [execShiftOp, hmask] using hsL (b % RAM_DOMAIN_SIZE)
  · simpa [execShiftOp, hmask] using hsL (b % RAM_DOMAIN_SIZE)
  · have hb := toSigned_bounds a ha
    have hdiv : toSigned a >>> (b % RAM_DOMAIN_SIZE) =
        toSigned a / (2 ^ (b % RAM_DOMAIN_SIZE) : Int) := by
      simpa using Int.shiftRight_eq_div_pow (toSigned a) (b % RAM_DOMAIN_SIZE)
    have hc : (0 : Int) < 2 ^ (b % RAM_DOMAIN_SIZE) := by positivity
    have hd1 : (1 : Int) ≤ 2 ^ (b % RAM_DOMAIN_SIZE) := by
      exact_mod_cast Nat.one_le_two_pow
    have hp : (0 : Int) ≤ 2 ^ (RAM_DOMAIN_SIZE - 1) := by positivity
    have hlo : -(2 ^ (RAM_DOMAIN_SIZE - 1) : Int) ≤
        toSigned a / (2 ^ (b % RAM_DOMAIN_SIZE) : Int) := by
      rw [Int.le_ediv_iff_mul_le hc]
      nlinarith [hb.1, hd1, hp]
    have hhi : toSigned a / (2 ^ (b % RAM_DOMAIN_SIZE) : Int) <
        (2 ^ (RAM_DOMAIN_SIZE - 1) : Int) := by
      rw [Int.ediv_lt_iff_lt_mul hc]
      nlinarith [hb.2, hd1, hp]
    simp only [execShiftOp, hmask, hdiv]
    exact toSigned_ofSigned _ hlo hhi
  · simpa [execShiftOp, hmask] using hsR (b % RAM_DOMAIN_SIZE)
  · simpa [execShiftOp, hmask] using hsR (b % RAM_DOMAIN_SIZE)
  · simpa [execShiftOp, hmask] using hsR (b % RAM_DOMAIN_SIZE)

/-- C8 witness: the shift characterization applied at `a = 2^31 + 5`
(a negative signed value), `b = 33` (an oversized shift amount). -/
theorem shift_ops_mask_and_semantics_witness :
    (33 : Nat) &&& RAM_BIT_SHIFT_MASK = 33 % RAM_DOMAIN_SIZE ∧
    execShiftOp .BSHIFT_L (2 ^ 31 + 5) 33 =
      (2 ^ 31 + 5) * 2 ^ (33 % RAM_DOMAIN_SIZE) % domainCard ∧
    execShiftOp .UBSHIFT_L (2 ^ 31 + 5) 33 =
      (2 ^ 31 + 5) * 2 ^ (33 % RAM_DOMAIN_SIZE) % domainCard ∧
    toSigned (execShiftOp .BSHIFT_R (2 ^ 31 + 5) 33) =
      toSigned (2 ^ 31 + 5) / (2 ^ (33 % RAM_DOMAIN_SIZE) : Int) ∧
    execShiftOp .UBSHIFT_R (2 ^ 31 + 5) 33 = (2 ^ 31 + 5) / 2 ^ (33 % RAM_DOMAIN_SIZE) ∧
    execShiftOp .BSHIFT_R_UNSIGNED (2 ^ 31 + 5) 33 =
      (2 ^ 31 + 5) / 2 ^ (33 % RAM_DOMAIN_SIZE) ∧
    execShiftOp .UBSHIFT_R_UNSIGNED (2 ^ 31 + 5) 33 =
      (2 ^ 31 + 5) / 2 ^ (33 % RAM_DOMAIN_SIZE) :=
  shift_ops_mask_and_semantics (2 ^ 31 + 5) 33
    (by unfold domainCard RAM_DOMAIN_SIZE; norm_num)

lemma aggStep_shouldRunNested {τ : Type} (fm : FloatModel) (agg : Aggregator)
    (uda : Domain → Domain → Domain) (filter : τ → Bool) (expr : τ → Domain)
    (st : AggState fm.F) (t : τ) :
    (aggStep fm agg uda filter expr st t).shouldRunNested =
      (st.shouldRunNested || filter t) := by
  unfold aggStep
  by_cases h : filter t
  · rcases agg with op | _
    · cases op <;> simp [h]
    · simp [h]
  · simp [h]

lemma foldl_aggStep_shouldRunNested {τ : Type} (fm : FloatModel) (agg : Aggregator)
    (uda : Domain → Domain → Domain) (filter : τ → Bool) (expr : τ → Domain)
    (tuples : List τ) (st : AggState fm.F) :
    (tuples.foldl (aggStep fm agg uda filter expr) st).shouldRunNested =
      (st.shouldRunNested || tuples.any filter) := by
  induction tuples generalizing st with
  | nil => simp
  | cons t ts ih =>
    rw [List.foldl_cons, ih, aggStep_shouldRunNested]
    simp [List.any_cons, Bool.or_assoc]

lemma runNested_eq_explicit (ag : Aggregator) :
    runNested ag =
      (decide (ag = .intrinsic .COUNT) || decide (ag = .intrinsic .SUM) ||
        decide (ag = .intrinsic .USUM) || decide (ag = .intrinsic .FSUM) ||
        decide (ag = .userDefined)) := by
  rcases ag with op | _
  · cases op <;> rfl
  · rfl

/-- C3: for every `Aggregate`/`IndexAggregate` evaluation, the nested
operation is executed if and only if at least one candidate tuple passed
the filter OR the aggregator is one of COUNT, SUM, USUM, FSUM, or a
user-defined aggregator; and the value the evaluation returns is the nested
operation evaluated on the aggregate result that was bound (as a 1-tuple)
to the aggregate's tuple-id first, when it runs, and `true` (1)
otherwise. -/
theorem aggregate_runs_nested_iff_and_binds_result {τ : Type} (fm : FloatModel)
    (agg : Aggregator) (userInit : Domain) (uda : Domain → Domain → Domain)
    (tuples : List τ) (filter : τ → Bool) (expr : τ → Domain)
    (nested : Domain → Domain) :
    ((evalAggregate fm agg userInit uda tuples filter expr nested).2.1 = true ↔
      ((∃ t ∈ tuples, filter t = true) ∨ agg = .intrinsic .COUNT ∨
        agg = .intrinsic .SUM ∨ agg = .intrinsic .USUM ∨ agg = .intrinsic .FSUM ∨
        agg = .userDefined)) ∧
    (evalAggregate fm agg userInit uda tuples filter expr nested).1 =
      (if (evalAggregate fm agg userInit uda tuples filter expr nested).2.1 then
        nested (evalAggregate fm agg userInit uda tuples filter expr nested).2.2
      else 1) := by
  constructor
  · have h0 : (evalAggregate fm agg userInit uda tuples filter expr nested).2.1 =
        (tuples.foldl (aggStep fm agg uda filter expr)
          ⟨initValue fm agg userInit, fm.zero, fm.zero, runNested agg⟩).shouldRunNested :=
      rfl
    rw [h0, foldl_aggStep_shouldRunNested, runNested_eq_explicit]
    simp only [Bool.or_eq_true, decide_eq_true_eq, List.any_eq_true]
    aesop
  · rfl

lemma applyWrites_apply_of_not_mem {A : Nat} (l : List (Fin A × Domain))
    (t : Fin A → Domain) (i : Fin A) (h : ∀ e ∈ l, e.1 ≠ i) :
    applyWrites l t i = t i := by
  induction l generalizing t with
  | nil => rfl
  | cons e es ih =>
    have hstep : applyWrites (e :: es) t = applyWrites es (Function.update t e.1 e.2) :=
      rfl
    rw [hstep, ih _ (fun x hx => h x (List.mem_cons_of_mem _ hx))]
    exact Function.update_noteq (Ne.symm (h e (List.mem_cons_self e es))) e.2 t

lemma applyWrites_apply_congr {A : Nat} (l : List (Fin A × Domain))
    (t1 t2 : Fin A → Domain) (i : Fin A) (h : t1 i = t2 i) :
    applyWrites l t1 i = applyWrites l t2 i := by
  induction l generalizing t1 t2 with
  | nil => exact h
  | cons e es ih =>
    have h1 : applyWrites (e :: es) t1 = applyWrites es (Function.update t1 e.1 e.2) :=
      rfl
    have h2 : applyWrites (e :: es) t2 = applyWrites es (Function.update t2 e.1 e.2) :=
      rfl
    rw [h1, h2]
    apply ih
    by_cases hie : i = e.1
    · subst hie
      rw [Function.update_same, Function.update_same]
    · rw [Function.update_noteq hie, Function.update_noteq hie]
      exact h

lemma applyWrites_apply_of_mem {A : Nat} (l : List (Fin A × Domain))
    (t1 t2 : Fin A → Domain) (i : Fin A) (h : ∃ e ∈ l, e.1 = i) :
    applyWrites l t1 i = applyWrites l t2 i := by
  induction l generalizing t1 t2 with
  | nil =>
    rcases h with ⟨e, he, _⟩
    exact absurd he (List.not_mem_nil e)
  | cons e es ih =>
    have h1 : applyWrites (e :: es) t1 = applyWrites es (Function.update t1 e.1 e.2) :=
      rfl
    have h2 : applyWrites (e :: es) t2 = applyWrites es (Function.update t2 e.1 e.2) :=
      rfl
    rw [h1, h2]
    rcases h with ⟨f, hf, hfi⟩
    rcases List.mem_cons.mp hf with rfl | hmem
    · apply applyWrites_apply_congr
      rw [← hfi, Function.update_same, Function.update_same]
    · exact ih _ _ ⟨f, hmem, hfi⟩

/-- C4: an `ExistenceCheck` with a total search answers
`view.contains(point tuple)`; a non-total search answers
`view.contains(low, high)` where every column fixed at runtime by the
super-instruction has the same value in both bounds, and every other column
takes exactly the `superInfo.first` (low) and `superInfo.second` (high)
template values, which the generator fills with the column's full domain
bounds for unspecified columns. -/
theorem existence_check_bounds (A : Nat) (si : SuperInstruction A) (ctxt : Ctxt)
    (view : IndexView A) :
    evalExistenceCheck si true ctxt view = view.containsPoint (existLow si ctxt) ∧
    evalExistenceCheck si false ctxt view =
      view.containsRange (existLow si ctxt) (existHigh si ctxt) ∧
    (∀ i : Fin A, touched si i = true → existLow si ctxt i = existHigh si ctxt i) ∧
    (∀ i : Fin A, touched si i = false →
      existLow si ctxt i = si.first i ∧ existHigh si ctxt i = si.second i) := by
  refine ⟨rfl, rfl, ?_, ?_⟩
  · intro i hi
    simp only [touched, Bool.or_eq_true, List.any_eq_true, decide_eq_true_eq] at hi
    rcases hi with htf | hef
    · unfold existLow existHigh
      apply applyWrites_apply_congr
      apply applyWrites_apply_of_mem
      rcases htf with ⟨e, he, hei⟩
      exact ⟨(e.1, ctxt e.2.1 e.2.2), List.mem_map.mpr ⟨e, he, rfl⟩, hei⟩
    · unfold existLow existHigh
      exact applyWrites_apply_of_mem _ _ _ _ hef
  · intro i hi
    have hi1 : ∀ e ∈ si.tupleFirst, e.1 ≠ i := by
      intro e he hcon
      have ht : touched si i = true := by
        simp only [touched, Bool.or_eq_true, List.any_eq_true, decide_eq_true_eq]
        exact Or.inl ⟨e, he, hcon⟩
      rw [hi] at ht
      exact Bool.false_ne_true ht
    have hi2 : ∀ e ∈ si.exprFirst, e.1 ≠ i := by
      intro e he hcon
      have ht : touched si i = true := by
        simp only [touched, Bool.or_eq_true, List.any_eq_true, decide_eq_true_eq]
        exact Or.inr ⟨e, he, hcon⟩
      rw [hi] at ht
      exact Bool.false_ne_true ht
    have hmap : ∀ e ∈ tupleWrites ctxt si.tupleFirst, e.1 ≠ i := by
      intro e he
      rcases List.mem_map.mp he with ⟨f, hf, rfl⟩
      exact hi1 f hf
    constructor
    · unfold existLow
      rw [applyWrites_apply_of_not_mem _ _ _ hi2, applyWrites_apply_of_not_mem _ _ _ hmap]
    · unfold existHigh
      rw [applyWrites_apply_of_not_mem _ _ _ hi2, applyWrites_apply_of_not_mem _ _ _ hmap]

/-- C4 witness: for the concrete super-instruction `si0`, column 0 is fixed
at runtime and the two bounds agree there. -/
theorem existence_check_bounds_witness :
    touched si0 (0 : Fin 2) = true ∧ existLow si0 ctxt0 0 = existHigh si0 ctxt0 0 :=
  ⟨by decide, (existence_check_bounds 2 si0 ctxt0 view0).2.2.1 0 (by decide)⟩

/-- C5: a `ProvenanceExistenceCheck` of arity `A + 2` sets the last two
columns of the low bound to `MIN_RAM_SIGNED` and of the high bound to
`MAX_RAM_SIGNED` while the data columns keep the super-instruction bounds;
if `view.range(lo, hi)` is empty the check is false, otherwise it is the
signed comparison `level ≤ threshold` on the level entry (column `A + 1`)
of the first tuple of the range. -/
theorem provenance_existence_bounds_and_level (A : Nat) (si : SuperInstruction (A + 2))
    (ctxt : Ctxt) (view : IndexView (A + 2)) (threshold : Domain) :
    provLow si ctxt ⟨A, by omega⟩ = minSignedPat ∧
    provLow si ctxt ⟨A + 1, by omega⟩ = minSignedPat ∧
    provHigh si ctxt ⟨A, by omega⟩ = maxSignedPat ∧
    provHigh si ctxt ⟨A + 1, by omega⟩ = maxSignedPat ∧
    (∀ i : Fin (A + 2), (i : Nat) < A →
      provLow si ctxt i = existLow si ctxt i ∧
      provHigh si ctxt i = existHigh si ctxt i) ∧
    (view.range (provLow si ctxt) (provHigh si ctxt) = [] →
      evalProvenanceExistenceCheck si ctxt view threshold = false) ∧
    (∀ t rest, view.range (provLow si ctxt) (provHigh si ctxt) = t :: rest →
      evalProvenanceExistenceCheck si ctxt view threshold =
        decide (toSigned (t ⟨A + 1, by omega⟩) ≤ toSigned threshold)) := by
  have hne : (⟨A, by omega⟩ : Fin (A + 2)) ≠ ⟨A + 1, by omega⟩ := by
    intro hcon
    have hc := congrArg Fin.val hcon
    simp at hc
  refine ⟨?_, ?_, ?_, ?_, ?_, ?_, ?_⟩
  · unfold provLow
    rw [Function.update_noteq hne, Function.update_same]
  · unfold provLow
    rw [Function.update_same]
  · unfold provHigh
    rw [Function.update_noteq hne, Function.update_same]
  · unfold provHigh
    rw [Function.update_same]
  · intro i hlt
    have h1 : i ≠ (⟨A, by omega⟩ : Fin (A + 2)) := by
      intro hcon
      have hv : (i : Nat) = A := by
        have hc := congrArg Fin.val hcon
        simpa using hc
      omega
    have h2 : i ≠ (⟨A + 1, by omega⟩ : Fin (A + 2)) := by
      intro hcon
      have hv : (i : Nat) = A + 1 := by
        have hc := congrArg Fin.val hcon
        simpa using hc
      omega
    constructor
    · unfold provLow
      rw [Function.update_noteq h2, Function.update_noteq h1]
    · unfold provHigh
      rw [Function.update_noteq h2, Function.update_noteq h1]
  · intro h
    unfold evalProvenanceExistenceCheck
    rw [h]
  · intro t rest h
    unfold evalProvenanceExistenceCheck
    rw [h]

/-- C5 witness: over the empty view `view0` the range is empty and the
check answers false. -/
theorem provenance_existence_bounds_and_level_witness :
    view0.range (provLow (A := 0) si0 ctxt0) (provHigh (A := 0) si0 ctxt0) = [] ∧
      evalProvenanceExistenceCheck (A := 0) si0 ctxt0 view0 5 = false :=
  ⟨rfl, (provenance_existence_bounds_and_level 0 si0 ctxt0 view0 5).2.2.2.2.2.1 rfl⟩

/-- C9 counterexample: evaluating `SUBSTR` on the decoded string `"hi"` with
index 0 and length 5 neither behaves as out-of-range (no warning, result not
the empty symbol) nor yields a substring of length 5 — the code clamps the
length and returns `"hi"` silently, so under either reading of "within
range" for the pair `(0, 5)` the claim fails at this input. -/
theorem substr_claim_fails_at_hi_zero_five :
    ¬ (((evalSUBSTR substrCE 2 0 5).2 ≠ [] ∧
          (evalSUBSTR substrCE 2 0 5).1 = substrCE.encode "") ∨
        (∃ sub : String, sub.length = 5 ∧
          (evalSUBSTR substrCE 2 0 5).1 = substrCE.encode sub ∧
          (evalSUBSTR substrCE 2 0 5).2 = [])) := by
  have hval : evalSUBSTR substrCE 2 0 5 = (2, []) := by decide
  intro h
  rcases h with ⟨hw, _⟩ | ⟨sub, hlen, henc, _⟩
  · exact hw (by rw [hval])
  · rw [hval] at henc
    simp only [substrCE] at henc
    rw [hlen] at henc
    exact absurd henc (by decide)

/-- C9 (amended): for every evaluation of `SUBSTR(s, i, n)`, with `i` and
`n` converted to `size_t`: if `i` is at most the length of the decoded
string the result is the symbol for the substring starting at `i` of length
`min(n, length - i)` and no warning is emitted; if `i` exceeds the length a
warning is emitted on the diagnostic channel and the result is the empty
symbol; in both cases a value is returned and execution continues
normally. -/
theorem substr_in_range_and_out_of_range (st : SymbolTable) (s i n : Domain) :
    (toSizeT i ≤ (st.decode s).length →
      evalSUBSTR st s i n =
        (st.encode (String.mk (((st.decode s).data.drop (toSizeT i)).take (toSizeT n))),
          []) ∧
      (((st.decode s).data.drop (toSizeT i)).take (toSizeT n)).length =
        min (toSizeT n) ((st.decode s).length - toSizeT i)) ∧
    ((st.decode s).length < toSizeT i →
      evalSUBSTR st s i n =
        (st.encode "", ["warning: wrong index position provided by substr functor."])) := by
  constructor
  · intro h
    have hc : ¬ (st.decode s).length < toSizeT i := not_lt.mpr h
    constructor
    · simp only [evalSUBSTR, if_neg hc]
    · rw [List.length_take, List.length_drop]
      rfl
  · intro h
    simp only [evalSUBSTR, if_pos h]

/-- C9 witness: the amended theorem applied at the concrete symbol table
`substrCE` with symbol 2 (decoding to `"hi"`), index 1 and length 1. -/
theorem substr_in_range_and_out_of_range_witness :
    toSizeT 1 ≤ (substrCE.decode 2).length ∧
      evalSUBSTR substrCE 2 1 1 =
        (substrCE.encode
            (String.mk (((substrCE.decode 2).data.drop (toSizeT 1)).take (toSizeT 1))),
          []) :=
  ⟨by decide, ((substr_in_range_and_out_of_range substrCE 2 1 1).1 (by decide)).1⟩

/-- C6: an `Insert` targeting the relation named
`R_5coref4java8Callable16getBelongedClass` returns true and leaves every
relation's contents unchanged, and an `EmptinessCheck` on that relation is
answered by the adapter's `isEmpty` (`!dataLoaded || internal.empty()`)
rather than the standard relation's `empty()` — the two answers genuinely
differ on some adapter states. -/
theorem special_insert_noop_and_emptiness_via_adapter (rels : RelStore)
    (llm : LLMQueryRelationWrapper) (t : List Domain) :
    execInsertCase rels specialRelName t = (true, rels) ∧
    execEmptinessCheckCase rels llm specialRelName = (llmIsEmpty llm).2 ∧
    (llmIsEmpty llm).2 = (!llm.dataLoaded || llm.internal.isEmpty) ∧
    ∃ w : LLMQueryRelationWrapper, (llmIsEmpty w).2 ≠ w.internal.isEmpty := by
  refine ⟨?_, ?_, rfl, ⟨⟨false, [[1]]⟩, by decide⟩⟩
  · unfold execInsertCase
    rw [if_pos rfl]
  · unfold execEmptinessCheckCase
    rw [if_pos rfl]

/-- C10: the adapter's `isEmpty` answers true whenever the one-shot load has
not happened, regardless of the internal or external contents, and leaves
the state untouched (no load); `begin`, `end`, `insert`, `contains`,
`size`, `printStats`, `getIndexOrder` and `createView` all route through
`loadDataIfNeeded`; `purge` clears the loaded flag, and a later access
(here `size`) re-populates the relation from the external source. -/
theorem llm_wrapper_lazy_load_protocol (env : ExternalEnv)
    (w : LLMQueryRelationWrapper) (t : List Domain) :
    (w.dataLoaded = false → (llmIsEmpty w).2 = true) ∧
    (llmIsEmpty w).1 = w ∧
    (llmBegin env w).1 = loadDataIfNeeded env w ∧
    (llmEnd env w).1 = loadDataIfNeeded env w ∧
    llmInsert env w t = loadDataIfNeeded env w ∧
    (llmContains env w t).1 = loadDataIfNeeded env w ∧
    (llmSize env w).1 = loadDataIfNeeded env w ∧
    llmPrintStats env w = loadDataIfNeeded env w ∧
    llmGetIndexOrder env w = loadDataIfNeeded env w ∧
    llmCreateView env w = loadDataIfNeeded env w ∧
    (llmPurge w).dataLoaded = false ∧
    (env.targetPresent = true →
      (llmSize env (llmPurge w)).1.dataLoaded = true ∧
      (llmSize env (llmPurge w)).1.internal =
        env.externTuples.foldl (fun l u => insertTuple u l) []) := by
  refine ⟨?_, rfl, rfl, rfl, rfl, rfl, rfl, rfl, rfl, rfl, rfl, ?_⟩
  · intro h
    unfold llmIsEmpty
    rw [h]
    rfl
  · intro h
    unfold llmSize llmPurge loadDataIfNeeded
    simp [h]

/-- C10 witness: an unloaded adapter with non-empty internal contents still
reports `isEmpty = true`. -/
theorem llm_wrapper_lazy_load_protocol_witness :
    (⟨false, [[3]]⟩ : LLMQueryRelationWrapper).dataLoaded = false ∧
      (llmIsEmpty ⟨false, [[3]]⟩).2 = true :=
  ⟨rfl, (llm_wrapper_lazy_load_protocol ⟨true, [[2]]⟩ ⟨false, [[3]]⟩ [1]).1 rfl⟩

end SouffleMod
